import Mathlib

/-!
Verification development for the model-definition library in
`src/models/RawNet2Spoof.py` (audio spoof-detection architectures).

The Python source is shallowly embedded: tensors are (nested) lists of
real numbers (`ℝ` idealises the source's floating-point arithmetic),
constructor-time validation is an `Except` value, stateful modules are
explicit state records, and the external tensor-library primitives
(convolution, batch normalisation, pooling, linear layers, activations)
are transcribed from their documented closed forms.  The multi-layer GRU
is an external framework primitive and is kept as an uninterpreted
sequence-to-sequence function field.
-/

noncomputable section

/-- Per-channel time series / feature vectors. -/
abbrev Vec := List ℝ

/-- A `[channels, time]` (or `[rows, cols]`) tensor. -/
abbrev Mat := List (List ℝ)

/-- A `[batch, channels, time]` tensor. -/
abbrev T3 := List (List (List ℝ))

/-- Embedding of `np.max` on a one-dimensional array (0 on the empty list,
which `np.max` rejects; never reached by the source). -/
def npMax : List ℝ → ℝ
  | [] => 0
  | h :: t => t.foldl max h

/-- Embedding of `np.min` on a one-dimensional array. -/
def npMin : List ℝ → ℝ
  | [] => 0
  | h :: t => t.foldl min h

/-- Embedding of `np.linspace a b num`: `num` evenly spaced points from
`a` to `b` inclusive. -/
def linspace (a b : ℝ) (num : ℕ) : List ℝ :=
  (List.range num).map fun (j : ℕ) => a + (b - a) * (j : ℝ) / ((num : ℝ) - 1)

/-- Embedding of `np.sinc`: the normalised sinc `sin(πt)/(πt)` with value 1
at `t = 0`. -/
def npSinc (t : ℝ) : ℝ :=
  if t = 0 then 1 else Real.sin (Real.pi * t) / (Real.pi * t)

/-- Embedding of `np.hamming n`: `0.54 - 0.46 cos(2πj/(n-1))` for
`j = 0, …, n-1`. -/
def hammingWindow (n : ℕ) : List ℝ :=
  (List.range n).map fun (j : ℕ) =>
    0.54 - 0.46 * Real.cos (2 * Real.pi * (j : ℝ) / ((n : ℝ) - 1))

/-- `SincConv.to_mel` (source line 17): `mel(hz) = 2595·log10(1 + hz/700)`. -/
def SincConv.to_mel (hz : ℝ) : ℝ := 2595 * Real.logb 10 (1 + hz / 700)

/-- `SincConv.to_hz` (source line 21): `hz(mel) = 700·(10^(mel/2595) - 1)`. -/
def SincConv.to_hz (mel : ℝ) : ℝ := 700 * ((10 : ℝ) ^ (mel / 2595) - 1)

/-- The Mel band-edge computation of `SincConv.__init__` (source lines
64-72): 257 frequencies evenly spaced from 0 to `int(sample_rate/2)`,
converted to Mel, then `outChannels + 1` evenly spaced Mel points between
the min and max, converted back to Hz. -/
def SincConv.melEdges (sampleRate : ℕ) (outChannels : ℕ) : List ℝ :=
  let f := (linspace 0 1 (512 / 2 + 1)).map fun v => ((sampleRate / 2 : ℕ) : ℝ) * v
  let fmel := f.map SincConv.to_mel
  let fmelmax := npMax fmel
  let fmelmin := npMin fmel
  let filbandwidthsmel := linspace fmelmin fmelmax (outChannels + 1)
  filbandwidthsmel.map SincConv.to_hz

/-- `torch.arange(-(ks-1)/2, (ks-1)/2 + 1)` for the (odd) effective kernel
size `ks` (source lines 73-74). -/
def hsuppList (ks : ℕ) : List ℝ :=
  (List.range ks).map fun (j : ℕ) => (j : ℝ) - ((ks : ℝ) - 1) / 2

/-- The constructor arguments of `SincConv` (source lines 24-36). -/
structure SincArgs where
  out_channels : Int
  kernel_size : Int
  in_channels : Int
  sample_rate : Int
  stride : Int
  padding : Int
  dilation : Int
  bias : Bool
  groups : Int

/-- The three `ValueError`s `SincConv.__init__` can raise. -/
inductive SincError where
  | onlyOneChannel (n : Int)
  | noBias
  | noGroups
deriving DecidableEq

/-- The message attached to each invalid-configuration error (source lines
41-43, 60, 62).  The `%`-formatting of the first message keeps the literal
braces of the Python format string around the channel count. -/
def SincError.message : SincError → String
  | .onlyOneChannel n =>
      "SincConv only support one input channel (here, in_channels = \x7b" ++
        toString n ++ "\x7d)"
  | .noBias => "SincConv does not support bias."
  | .noGroups => "SincConv does not support groups."

/-- The instance state a successful `SincConv.__init__` leaves behind.
`filters` is `none` because `self.filters` is first assigned inside
`forward` (source line 92); `band_pass` starts as the zero matrix
(source line 75). -/
structure SincState where
  out_channels : Int
  kernel_size : Int
  sample_rate : Int
  stride : Int
  padding : Int
  dilation : Int
  mel : List ℝ
  hsupp : List ℝ
  band_pass : List (List ℝ)
  filters : Option (List Mat)

/-- The odd-forcing of the kernel size (source lines 51-52): an even
kernel size becomes the next odd integer. -/
def SincConv.effKernel (k : Int) : Int := if k % 2 = 0 then k + 1 else k

/-- The state built by a successful `SincConv.__init__` (source lines
46-75). -/
def SincConv.mkState (a : SincArgs) : SincState :=
  { out_channels := a.out_channels
    kernel_size := SincConv.effKernel a.kernel_size
    sample_rate := a.sample_rate
    stride := a.stride
    padding := a.padding
    dilation := a.dilation
    mel := SincConv.melEdges a.sample_rate.toNat a.out_channels.toNat
    hsupp := hsuppList (SincConv.effKernel a.kernel_size).toNat
    band_pass :=
      List.replicate a.out_channels.toNat
        (List.replicate (SincConv.effKernel a.kernel_size).toNat (0 : ℝ))
    filters := none }

/-- `SincConv.__init__` (source lines 24-75): validation of
`in_channels`, `bias` and `groups`, then construction of the instance
state.  A raised `ValueError` is the corresponding `Except.error`. -/
def SincConv.init (a : SincArgs) : Except SincError SincState :=
  if a.in_channels ≠ 1 then .error (.onlyOneChannel a.in_channels)
  else if a.bias then .error .noBias
  else if 1 < a.groups then .error .noGroups
  else .ok (SincConv.mkState a)

/-- Embedding of `F.conv1d` without bias: weights `[out, in, k]`, with
stride, zero padding and dilation, applied to one `[channels, time]`
sample. -/
def conv1dNoBias (w : List Mat) (stride padding dilation : ℕ) (x : Mat) : Mat :=
  let k := ((w.headD []).headD []).length
  let xp := x.map fun row => List.replicate padding 0 ++ row ++ List.replicate padding 0
  let inLen := (x.headD []).length + 2 * padding
  let span := dilation * (k - 1) + 1
  let outLen := if span ≤ inLen then (inLen - span) / stride + 1 else 0
  w.map fun wo =>
    (List.range outLen).map fun t =>
      ((List.range wo.length).map fun ci =>
        ((List.range k).map fun j =>
          (wo.getD ci []).getD j 0 * (xp.getD ci []).getD (t * stride + j * dilation) 0).sum).sum

/-- Row `i` of the band-pass matrix synthesised on every
`SincConv.forward` call (source lines 78-88): the Hamming window times
the difference of the two windowed sinc low-pass responses. -/
def SincConv.bandRow (s : SincState) (i : ℕ) : List ℝ :=
  let fmin := s.mel.getD i 0
  let fmax := s.mel.getD (i + 1) 0
  let sr : ℝ := (s.sample_rate : ℝ)
  List.zipWith (fun w h => w * h) (hammingWindow s.kernel_size.toNat)
    (s.hsupp.map fun t =>
      2 * fmax / sr * npSinc (2 * fmax * t / sr) - 2 * fmin / sr * npSinc (2 * fmin * t / sr))

/-- The in-place rewrite of `self.band_pass` performed by the loop of
`SincConv.forward` (source lines 78-88): rows `0, …, len(mel) - 2` are
overwritten. -/
def SincConv.newBandPass (s : SincState) : List (List ℝ) :=
  (List.range (s.mel.length - 1)).foldl (fun bp i => bp.set i (SincConv.bandRow s i)) s.band_pass

/-- `self.filters = band_pass.view(out_channels, 1, kernel_size)` (source
lines 90-93). -/
def SincConv.filterView (s : SincState) : List Mat :=
  (SincConv.newBandPass s).map fun r => [r]

/-- `SincConv.forward` (source lines 77-103): recomputes `self.band_pass`
in place, assigns `self.filters`, and applies the filters as a 1-D
convolution over the batch.  Returns the updated instance state together
with the output tensor. -/
def SincConv.forward (s : SincState) (x : T3) : SincState × T3 :=
  let filt := SincConv.filterView s
  ({ s with band_pass := SincConv.newBandPass s, filters := some filt },
   x.map (conv1dNoBias filt s.stride.toNat s.padding.toNat s.dilation.toNat))

/-- The weight and bias of an `nn.Conv1d` layer (default `bias=True`, as
used throughout `Residual_block`). -/
structure Conv1dParams where
  weight : List Mat
  bias : Vec

/-- A biased stride-1, dilation-1 1-D convolution on one sample. -/
def conv1dApply (p : Conv1dParams) (padding : ℕ) (x : Mat) : Mat :=
  List.zipWith (fun row bo => row.map fun v => v + bo)
    (conv1dNoBias p.weight 1 padding 1 x) p.bias

/-- The evaluation-mode per-channel affine transform of an
`nn.BatchNorm1d` layer: `γ·(v - mean)/sqrt(var + eps) + β`.  The
training-mode update of the running statistics is the one side effect
the specification grants every normalisation layer and is not modelled. -/
structure BN1dParams where
  gamma : Vec
  beta : Vec
  mean : Vec
  var : Vec
  eps : ℝ

/-- Channelwise application of evaluation-mode batch normalisation to one
`[channels, time]` sample. -/
def bnApply (p : BN1dParams) (x : Mat) : Mat :=
  (List.range x.length).map fun c =>
    (x.getD c []).map fun v =>
      p.gamma.getD c 0 * ((v - p.mean.getD c 0) / Real.sqrt (p.var.getD c 0 + p.eps)) +
        p.beta.getD c 0

/-- `nn.LeakyReLU(negative_slope=0.3)` elementwise on one sample. -/
def lreluApply (x : Mat) : Mat :=
  x.map fun row => row.map fun v => if 0 ≤ v then v else 0.3 * v

/-- `nn.MaxPool1d k` (stride `k`, no padding) on one sample: each output
position is the max of a full window of `k` inputs. -/
def maxPool1dApply (k : ℕ) (x : Mat) : Mat :=
  x.map fun row =>
    (List.range (row.length / k)).map fun i =>
      npMax ((List.range k).map fun j => row.getD (i * k + j) 0)

/-- Elementwise sum of two equally shaped samples. -/
def addMat (a b : Mat) : Mat := List.zipWith (List.zipWith (· + ·)) a b

/-- The instance state of a `Residual_block` (source lines 107-145).  The
constructor registers `bn1` only when `first` is false and
`conv_downsample` only when the channel counts differ; both are modelled
as always-present parameter records, which is behaviourally equal on
every state the constructor produces because `forward` reads `bn1` only
when `first` is false and `conv_downsample` only when `downsample` is
true. -/
structure ResBlockState where
  first : Bool
  bn1 : BN1dParams
  conv1 : Conv1dParams
  bn2 : BN1dParams
  conv2 : Conv1dParams
  downsample : Bool
  conv_downsample : Conv1dParams

/-- The shortcut path of `Residual_block.forward` (source lines 160-161):
a 1×1 projection when `downsample` is set, the identity otherwise. -/
def Residual_block.shortcut (s : ResBlockState) (x : Mat) : Mat :=
  if s.downsample then conv1dApply s.conv_downsample 0 x else x

/-- `Residual_block.forward` on one `[channels, time]` sample (source
lines 147-165).  The normalised/activated value `out` of lines 150-151 is
computed and then discarded: line 155 applies `conv1` to the raw input
`x`, exactly as the source does. -/
def Residual_block.forwardSample (s : ResBlockState) (x : Mat) : Mat :=
  let identity := x
  let _out_pre := if s.first then x else lreluApply (bnApply s.bn1 x)
  let out := conv1dApply s.conv1 1 x
  let out := bnApply s.bn2 out
  let out := lreluApply out
  let out := conv1dApply s.conv2 1 out
  let identity := Residual_block.shortcut s identity
  maxPool1dApply 3 (addMat out identity)

/-- `Residual_block.forward` over a batch. -/
def Residual_block.forward (s : ResBlockState) (x : T3) : T3 :=
  x.map (Residual_block.forwardSample s)

/-- The weight and bias of an `nn.Linear` layer (default `bias=True`). -/
structure LinearParams where
  weight : Mat
  bias : Vec

/-- `nn.Linear` applied to one feature vector. -/
def linApply (p : LinearParams) (v : Vec) : Vec :=
  (List.range p.weight.length).map fun i =>
    (List.zipWith (fun a b => a * b) (p.weight.getD i []) v).sum + p.bias.getD i 0

/-- `torch.sigmoid`: `1 / (1 + exp (-z))`. -/
def sigmoidR (z : ℝ) : ℝ := 1 / (1 + Real.exp (-z))

/-- `nn.SELU` elementwise: `scale·(max 0 v + min 0 (α·(exp v - 1)))`. -/
def seluR (v : ℝ) : ℝ :=
  1.0507009873554805 * (max v 0 + min (1.6732632423543772 * (Real.exp v - 1)) 0)

/-- `nn.LogSoftmax(dim=1)` on one row of scores. -/
def logsoftmaxRow (v : Vec) : Vec :=
  v.map fun z => z - Real.log ((v.map Real.exp).sum)

/-- `nn.AdaptiveAvgPool1d(1)` on one sample followed by the `.view`
flattening of source line 352: per-channel mean over time. -/
def avgPoolVec (x : Mat) : Vec :=
  x.map fun row => row.sum / (row.length : ℝ)

/-- `x.permute(0, 2, 1)` on one sample: `[channels, time]` to
`[time, channels]`. -/
def permuteSample (x : Mat) : Mat :=
  (List.range ((x.headD []).length)).map fun t => x.map fun row => row.getD t 0

/-- One attention-gated stage of `Model2.forward` (the block of source
lines 351-357, repeated for stages 0-5): given this stage's residual
block output `xB`, squeeze it by a temporal average pool, excite through
the stage's linear layer and a sigmoid, and combine as
`x_i * y_i + y_i` with `y_i` broadcast over time. -/
def attentionGate (fc : LinearParams) (xB : T3) : T3 :=
  let yB := (xB.map avgPoolVec).map (linApply fc)
  let yB := yB.map fun r => r.map sigmoidR
  List.zipWith (fun xi yi =>
    List.zipWith (fun row yv => row.map fun v => v * yv + yv) xi yi) xB yB

/-- The gate value `y_i` fed to stage `i`'s combination, at batch index
`b` and channel `c`: `sigmoid(linear(global_average_pool_over_time x))`. -/
def gateValue (fc : LinearParams) (xB : T3) (b c : ℕ) : ℝ :=
  sigmoidR ((linApply fc (avgPoolVec (xB.getD b []))).getD c 0)

/-- Modelled from the spec: the plain multiplicative squeeze-excite gate
`x_i * y_i` (no additive re-injection), stated only for comparison with
the combination the source actually uses. -/
def plainMultGate (fc : LinearParams) (xB : T3) : T3 :=
  let yB := (xB.map avgPoolVec).map (linApply fc)
  let yB := yB.map fun r => r.map sigmoidR
  List.zipWith (fun xi yi =>
    List.zipWith (fun row yv => row.map fun v => v * yv) xi yi) xB yB

/-- The instance state of `Model2` (source lines 272-338) at tensor
level.  The `nn.GRU` aggregator is an external framework primitive and is
kept as an uninterpreted per-sample `[time, feat] → [time, hidden]`
function. -/
structure Model2State where
  sinc : SincState
  first_bn : BN1dParams
  block0 : ResBlockState
  block1 : ResBlockState
  block2 : ResBlockState
  block3 : ResBlockState
  block4 : ResBlockState
  block5 : ResBlockState
  fc_attention0 : LinearParams
  fc_attention1 : LinearParams
  fc_attention2 : LinearParams
  fc_attention3 : LinearParams
  fc_attention4 : LinearParams
  fc_attention5 : LinearParams
  bn_before_gru : BN1dParams
  gru : Mat → Mat
  fc1_gru : LinearParams
  fc2_gru : LinearParams

/-- The front end of `Model2.forward` (source lines 342-349): reshape to
`[batch, 1, len]`, Sinc convolution (output part), absolute value,
max pool 3, batch normalisation, SELU. -/
def Model2.frontEnd (s : Model2State) (x : Mat) : T3 :=
  let x3 : T3 := x.map fun row => [row]
  let x3 := (SincConv.forward s.sinc x3).2
  let x3 := x3.map fun xc => maxPool1dApply 3 (xc.map fun row => row.map fun v => |v|)
  let x3 := x3.map (bnApply s.first_bn)
  x3.map fun xc => xc.map fun row => row.map seluR

/-- The per-batch feature vectors fed to `fc1_gru` by the tail of
`Model2.forward` (source lines 399-404): batch normalisation, SELU,
permute, GRU, last time step. -/
def Model2.preFc (s : Model2State) (x : T3) : List Vec :=
  let x := x.map (bnApply s.bn_before_gru)
  let x := x.map fun xc => xc.map fun row => row.map seluR
  let x := x.map permuteSample
  let x := x.map s.gru
  x.map fun m => m.getLastD []

/-- The tail of `Model2.forward` after the six gated stages (source lines
399-409): the pre-`fc1` pipeline, the two linear heads and the
log-softmax.  Returns `(last_hidden, output)` in the source's order. -/
def Model2.head (s : Model2State) (x : T3) : Mat × Mat :=
  let last_hidden := (Model2.preFc s x).map (linApply s.fc1_gru)
  let out := (last_hidden.map (linApply s.fc2_gru)).map logsoftmaxRow
  (last_hidden, out)

/-- The six attention-gated residual stages of `Model2.forward` (source
lines 351-397): each stage applies its residual block and then the
squeeze-excite combination `x_i * y_i + y_i`. -/
def Model2.stages (s : Model2State) (x : T3) : T3 :=
  let x0 := attentionGate s.fc_attention0 (Residual_block.forward s.block0 x)
  let x1 := attentionGate s.fc_attention1 (Residual_block.forward s.block1 x0)
  let x2 := attentionGate s.fc_attention2 (Residual_block.forward s.block2 x1)
  let x3 := attentionGate s.fc_attention3 (Residual_block.forward s.block3 x2)
  let x4 := attentionGate s.fc_attention4 (Residual_block.forward s.block4 x3)
  attentionGate s.fc_attention5 (Residual_block.forward s.block5 x4)

/-- `Model2.forward` (source lines 340-409): the front end, six
attention-gated residual stages, and the recurrent classification head. -/
def Model2.forward (s : Model2State) (x : Mat) : Mat × Mat :=
  Model2.head s (Model2.stages s (Model2.frontEnd s x))

/-- The configuration mapping `d_args` (spec section 3).  In the source
`d_args["filts"]` is a heterogeneous list whose entry 0 is the front-end
channel count and whose entries 1 and 2 are `[in, out]` channel pairs;
it is modelled by the three components `filts0`, `filts1`, `filts2`. -/
structure DArgs where
  in_channels : Int
  first_conv : Int
  filts0 : Int
  filts1 : List Int
  filts2 : List Int
  gru_node : Int
  nb_gru_layer : Int
  nb_fc_node : Int
  nb_classes : Int
deriving DecidableEq

/-- Python's `l[-1]` on a list of ints. -/
def lastInt (l : List Int) : Int := l.getLastD 0

/-- The `SincConv` constructor call shared by `Model.__init__` (source
lines 198-203) and `Model2.__init__` (source lines 276-281): keyword
arguments `out_channels`, `kernel_size`, `in_channels`, all remaining
parameters left at their defaults. -/
def sincArgsOf (d : DArgs) : SincArgs :=
  { out_channels := d.filts0
    kernel_size := d.first_conv
    in_channels := d.in_channels
    sample_rate := 16000
    stride := 1
    padding := 0
    dilation := 1
    bias := false
    groups := 1 }

/-- One construction step of `Model2.__init__`, recorded in order. -/
inductive BuildEvent where
  | sincConv
  | firstBn (n : Int)
  | seluMod
  | block (idx : Nat) (nbFilts : List Int) (first : Bool)
  | setFilts2
  | avgpoolMod
  | attnFc (idx : Nat) (inF outF : Int)
  | bnBeforeGru (n : Int)
  | gruMod (inputSize hidden layers : Int)
  | fc1 (inF outF : Int)
  | fc2 (inF outF : Int)
  | sigMod
  | logsoftmaxMod
deriving DecidableEq

/-- `Model2.__init__` at configuration level (source lines 272-338): the
ordered trace of module constructions together with the final state of
the caller-supplied configuration.  The single statement that writes into
`d_args` is source line 291, `d_args["filts"][2][0] = d_args["filts"][2][1]`,
placed between the construction of `block2` and that of `block3`;
the `filts[1]`/`filts[2]` reads after that line (blocks 3-5, the
attention heads, `bn_before_gru` and the GRU) see the mutated list.
Construction fails exactly when the `SincConv` constructor raises. -/
def Model2.initConfig (d : DArgs) : Except SincError (List BuildEvent × DArgs) :=
  match SincConv.init (sincArgsOf d) with
  | .error e => .error e
  | .ok _ =>
  let ev := [BuildEvent.sincConv, BuildEvent.firstBn d.filts0, BuildEvent.seluMod,
    BuildEvent.block 0 d.filts1 true, BuildEvent.block 1 d.filts1 false,
    BuildEvent.block 2 d.filts2 false]
  let d := { d with filts2 := d.filts2.set 0 (d.filts2.getD 1 0) }
  let ev := ev ++ [BuildEvent.setFilts2,
    BuildEvent.block 3 d.filts2 false, BuildEvent.block 4 d.filts2 false,
    BuildEvent.block 5 d.filts2 false, BuildEvent.avgpoolMod,
    BuildEvent.attnFc 0 (lastInt d.filts1) (lastInt d.filts1),
    BuildEvent.attnFc 1 (lastInt d.filts1) (lastInt d.filts1),
    BuildEvent.attnFc 2 (lastInt d.filts2) (lastInt d.filts2),
    BuildEvent.attnFc 3 (lastInt d.filts2) (lastInt d.filts2),
    BuildEvent.attnFc 4 (lastInt d.filts2) (lastInt d.filts2),
    BuildEvent.attnFc 5 (lastInt d.filts2) (lastInt d.filts2),
    BuildEvent.bnBeforeGru (lastInt d.filts2),
    BuildEvent.gruMod (lastInt d.filts2) d.gru_node d.nb_gru_layer,
    BuildEvent.fc1 d.gru_node d.nb_fc_node,
    BuildEvent.fc2 d.nb_fc_node d.nb_classes,
    BuildEvent.sigMod, BuildEvent.logsoftmaxMod]
  .ok (ev, d)

/-- The build-event trace of a successful `Model2` construction, written
out in one flat list as a function of the incoming configuration. -/
def model2BuildEvents (d : DArgs) : List BuildEvent :=
  let f2 := d.filts2.set 0 (d.filts2.getD 1 0)
  [BuildEvent.sincConv, BuildEvent.firstBn d.filts0, BuildEvent.seluMod,
   BuildEvent.block 0 d.filts1 true, BuildEvent.block 1 d.filts1 false,
   BuildEvent.block 2 d.filts2 false, BuildEvent.setFilts2,
   BuildEvent.block 3 f2 false, BuildEvent.block 4 f2 false,
   BuildEvent.block 5 f2 false, BuildEvent.avgpoolMod,
   BuildEvent.attnFc 0 (lastInt d.filts1) (lastInt d.filts1),
   BuildEvent.attnFc 1 (lastInt d.filts1) (lastInt d.filts1),
   BuildEvent.attnFc 2 (lastInt f2) (lastInt f2),
   BuildEvent.attnFc 3 (lastInt f2) (lastInt f2),
   BuildEvent.attnFc 4 (lastInt f2) (lastInt f2),
   BuildEvent.attnFc 5 (lastInt f2) (lastInt f2),
   BuildEvent.bnBeforeGru (lastInt f2),
   BuildEvent.gruMod (lastInt f2) d.gru_node d.nb_gru_layer,
   BuildEvent.fc1 d.gru_node d.nb_fc_node,
   BuildEvent.fc2 d.nb_fc_node d.nb_classes,
   BuildEvent.sigMod, BuildEvent.logsoftmaxMod]

/-- `Model._make_layer` (source lines 239-245) at configuration level:
returns the `(in_channels, out_channels, stride)` triple of every block
of the stage, threading the mutable `self.in_channels` attribute, whose
final value is also returned. -/
def Model.makeLayer (inCh : Int) (outChannels : Int) (numBlocks : ℕ) (stride : Int) :
    List (Int × Int × Int) × Int :=
  let strides := stride :: List.replicate (numBlocks - 1) 1
  strides.foldl (fun acc st => (acc.1 ++ [(acc.2, outChannels, st)], outChannels)) ([], inCh)

/-- The configuration-level state left by `Model.__init__` (source lines
194-237): the final `self.in_channels`, the block specifications of the
four 2-D residual stages, and the widths of the head layers. -/
structure ModelCfgState where
  in_channels : Int
  layer1 : List (Int × Int × Int)
  layer2 : List (Int × Int × Int)
  layer3 : List (Int × Int × Int)
  layer4 : List (Int × Int × Int)
  bnBeforeGruWidth : Int
  gruInput : Int
  gruHidden : Int
  gruLayers : Int
  fc1Out : Int
  fc2Out : Int
deriving DecidableEq

/-- The state a successful `Model.__init__` produces (source lines
194-237): `self.in_channels` starts at `d_args["in_channels"]` (line 205)
and is reassigned by `_make_layer` to each stage's output width. -/
def Model.cfgOf (d : DArgs) : ModelCfgState :=
  let inCh := d.in_channels
  let r1 := Model.makeLayer inCh 64 2 1
  let r2 := Model.makeLayer r1.2 128 2 2
  let r3 := Model.makeLayer r2.2 256 2 2
  let r4 := Model.makeLayer r3.2 512 2 2
  { in_channels := r4.2
    layer1 := r1.1
    layer2 := r2.1
    layer3 := r3.1
    layer4 := r4.1
    bnBeforeGruWidth := lastInt d.filts2
    gruInput := lastInt d.filts2
    gruHidden := d.gru_node
    gruLayers := d.nb_gru_layer
    fc1Out := d.nb_fc_node
    fc2Out := d.nb_classes }

/-- `Model.__init__` at configuration level: the `SincConv` construction
of source lines 198-203 can raise; everything afterwards always
completes. -/
def Model.initConfig (d : DArgs) : Except SincError ModelCfgState :=
  match SincConv.init (sincArgsOf d) with
  | .error e => .error e
  | .ok _ => .ok (Model.cfgOf d)

/-- Python attribute resolution for a fixed set of instance attributes:
the first accessed name that was never assigned raises `AttributeError`
carrying that name. -/
def resolveAttrs (attrs : List String) (accesses : List String) : Except String Unit :=
  match accesses with
  | [] => .ok ()
  | a :: rest => if attrs.contains a then resolveAttrs attrs rest else .error a

/-- The instance attributes assigned by `Model.__init__`, in source order
(lines 198-237).  No `selu` attribute is ever assigned. -/
def Model.initAttrs : List String :=
  ["Sinc_conv", "in_channels", "conv1", "bn1", "relu", "maxpool",
   "layer1", "layer2", "layer3", "layer4", "avgpool", "bn_before_gru",
   "gru", "fc1_gru", "fc2_gru", "sig", "logsoftmax"]

/-- The instance attributes read by `Model.forward`, in evaluation order
(source lines 247-267): the pipeline steps up to the batch
normalisation that precedes the GRU, then the `self.selu` activation of
line 260, then the GRU and the classification head. -/
def Model.forwardAccessSeq : List String :=
  ["conv1", "bn1", "relu", "maxpool", "layer1", "layer2", "layer3", "layer4",
   "avgpool", "bn_before_gru", "selu", "gru", "gru", "fc1_gru", "fc2_gru",
   "logsoftmax"]

/-- The attribute resolution of one `Model.forward` call: `Except.ok`
would mean every step's module lookup succeeds and the call returns its
pair normally; an `Except.error` is the `AttributeError` at the named
step. -/
def Model.forwardResolve : Except String Unit :=
  resolveAttrs Model.initAttrs Model.forwardAccessSeq

/-- A representative RawNet2-style configuration, used to instantiate the
universally quantified theorems at concrete inputs. -/
def dArgsEx : DArgs :=
  { in_channels := 1
    first_conv := 1024
    filts0 := 20
    filts1 := [20, 20]
    filts2 := [20, 128]
    gru_node := 1024
    nb_gru_layer := 3
    nb_fc_node := 1024
    nb_classes := 2 }

/-- A representative valid `SincConv` configuration. -/
def sincArgsEx : SincArgs :=
  { out_channels := 20
    kernel_size := 128
    in_channels := 1
    sample_rate := 16000
    stride := 1
    padding := 0
    dilation := 1
    bias := false
    groups := 1 }

/-- A successful `SincConv.__init__` yields exactly the state
`SincConv.mkState`. -/
theorem SincConv.init_ok {a : SincArgs} {s : SincState}
    (h : SincConv.init a = Except.ok s) : s = SincConv.mkState a := by
  unfold SincConv.init at h
  split_ifs at h
  simp_all

/-- A successful `Model.__init__` yields exactly the configuration state
`Model.cfgOf`. -/
theorem Model.initConfig_ok {d : DArgs} {s : ModelCfgState}
    (h : Model.initConfig d = Except.ok s) : s = Model.cfgOf d := by
  unfold Model.initConfig at h
  cases hs : SincConv.init (sincArgsOf d) <;> rw [hs] at h <;> simp_all

/-- C1: For every input tensor, the forward pass of the effective 2-D
ResNet-style model (class `Model`) fails with a missing-attribute error
when it reaches the activation step after the batch normalization that
precedes the GRU, because `Model.__init__` constructs no SELU module
while `Model.forward` calls `self.selu`; consequently `Model.forward`
never returns normally.  Formally: the attribute resolution of
`Model.forward` is independent of the input, every access before the
`selu` step succeeds, the access after `bn_before_gru` is `selu`, `selu`
is never assigned by `__init__`, and resolution ends in
`AttributeError "selu"` rather than a normal return. -/
theorem c1_model_forward_missing_selu :
    Model.forwardResolve = Except.error "selu" ∧
    Model.initAttrs.contains "selu" = false ∧
    Model.forwardAccessSeq.getD 9 "" = "bn_before_gru" ∧
    Model.forwardAccessSeq.getD 10 "" = "selu" ∧
    (Model.forwardAccessSeq.take 10).all (fun a => Model.initAttrs.contains a) = true :=
  ⟨rfl, by decide, by decide, by decide, by decide⟩

/-- C2: Constructing `SincConv` raises a `ValueError` if and only if
`in_channels ≠ 1`, or `bias` is true, or `groups > 1`, each with its
documented message; for every configuration with `in_channels = 1`,
`bias = false`, and `groups ≤ 1`, construction completes without
error. -/
theorem c2_sincconv_validation (a : SincArgs) :
    (a.in_channels = 1 ∧ a.bias = false ∧ a.groups ≤ 1 → (SincConv.init a).isOk = true) ∧
    (a.in_channels ≠ 1 → SincConv.init a = Except.error (.onlyOneChannel a.in_channels)) ∧
    (a.in_channels = 1 → a.bias = true → SincConv.init a = Except.error .noBias) ∧
    (a.in_channels = 1 → a.bias = false → 1 < a.groups →
      SincConv.init a = Except.error .noGroups) ∧
    SincError.message (.onlyOneChannel a.in_channels) =
      "SincConv only support one input channel (here, in_channels = \x7b" ++
        toString a.in_channels ++ "\x7d)" ∧
    SincError.message .noBias = "SincConv does not support bias." ∧
    SincError.message .noGroups = "SincConv does not support groups." := by
  refine ⟨?_, ?_, ?_, ?_, rfl, rfl, rfl⟩
  · rintro ⟨h1, h2, h3⟩
    simp [SincConv.init, h1, h2, not_lt.mpr h3, Except.isOk, Except.toBool]
  · intro h
    simp [SincConv.init, h]
  · intro h1 h2
    simp [SincConv.init, h1, h2]
  · intro h1 h2 h3
    simp [SincConv.init, h1, h2, h3]

/-- Witness for C2 at concrete configurations: the representative valid
configuration constructs, and each invalid variation raises. -/
theorem c2_sincconv_validation_witness :
    (SincConv.init sincArgsEx).isOk = true ∧
    SincConv.init { sincArgsEx with in_channels := 2 } =
      Except.error (.onlyOneChannel 2) ∧
    SincConv.init { sincArgsEx with bias := true } = Except.error .noBias ∧
    SincConv.init { sincArgsEx with groups := 2 } = Except.error .noGroups :=
  ⟨(c2_sincconv_validation sincArgsEx).1 ⟨rfl, rfl, by decide⟩,
   (c2_sincconv_validation { sincArgsEx with in_channels := 2 }).2.1 (by decide),
   (c2_sincconv_validation { sincArgsEx with bias := true }).2.2.1 rfl rfl,
   (c2_sincconv_validation { sincArgsEx with groups := 2 }).2.2.2.1 rfl rfl (by decide)⟩

/-- C7: Given an even `kernel_size` k at `SincConv` construction, the
effective kernel size stored and used for filter synthesis is `k + 1`;
for odd k it is k unchanged, so the symmetric support points (`hsupp`)
and the `band_pass` filter width always equal an odd number. -/
theorem c7_effective_kernel_odd (a : SincArgs) (s : SincState)
    (h : SincConv.init a = Except.ok s) :
    s.kernel_size = (if a.kernel_size % 2 = 0 then a.kernel_size + 1 else a.kernel_size) ∧
    (a.kernel_size % 2 = 0 → s.kernel_size = a.kernel_size + 1) ∧
    (a.kernel_size % 2 ≠ 0 → s.kernel_size = a.kernel_size) ∧
    s.kernel_size % 2 = 1 ∧
    s.hsupp.length = s.kernel_size.toNat ∧
    s.band_pass =
      List.replicate a.out_channels.toNat (List.replicate s.kernel_size.toNat (0 : ℝ)) := by
  obtain rfl := SincConv.init_ok h
  refine ⟨rfl, ?_, ?_, ?_, ?_, rfl⟩
  · intro hk
    simp [SincConv.mkState, SincConv.effKernel, hk]
  · intro hk
    simp [SincConv.mkState, SincConv.effKernel, hk]
  · simp only [SincConv.mkState, SincConv.effKernel]
    split_ifs with hk <;> omega
  · simp only [SincConv.mkState, hsuppList, List.length_map, List.length_range]

/-- Witness for C7 at `kernel_size = 128`: construction succeeds and the
effective kernel size is the next odd integer, `128 + 1`. -/
theorem c7_effective_kernel_odd_witness :
    (SincConv.mkState sincArgsEx).kernel_size = (128 : Int) + 1 ∧
    (SincConv.mkState sincArgsEx).kernel_size % 2 = 1 :=
  ⟨(c7_effective_kernel_odd sincArgsEx (SincConv.mkState sincArgsEx) rfl).2.1 (by decide),
   (c7_effective_kernel_odd sincArgsEx (SincConv.mkState sincArgsEx) rfl).2.2.2.1⟩

/-- C10: after constructing the effective 2-D `Model`, the instance
attribute `in_channels` equals 512 for every configuration that
constructs successfully, regardless of the value of
`d_args["in_channels"]`: `_make_layer` reassigns `self.in_channels` to
each stage's output width (64, 128, 256, then 512) while building the
four residual stages. -/
theorem c10_model_in_channels_512 (d : DArgs) (s : ModelCfgState)
    (h : Model.initConfig d = Except.ok s) :
    s.in_channels = 512 ∧
    s.layer1 = [(d.in_channels, 64, 1), (64, 64, 1)] ∧
    s.layer2 = [(64, 128, 2), (128, 128, 1)] ∧
    s.layer3 = [(128, 256, 2), (256, 256, 1)] ∧
    s.layer4 = [(256, 512, 2), (512, 512, 1)] := by
  obtain rfl := Model.initConfig_ok h
  exact ⟨rfl, rfl, rfl, rfl, rfl⟩

/-- Witness for C10 at the representative configuration. -/
theorem c10_model_in_channels_512_witness :
    (Model.cfgOf dArgsEx).in_channels = 512 :=
  (c10_model_in_channels_512 dArgsEx (Model.cfgOf dArgsEx) rfl).1

/-- C5: Constructing `Model2` performs exactly one in-place mutation of
the caller-supplied configuration: it sets
`d_args["filts"][2][0] = d_args["filts"][2][1]` after the third residual
block (`block2`) is built and before the fourth (`block3`); after
construction the configuration satisfies `filts[2][0] == filts[2][1]`
regardless of the value passed in, and no other configuration entry is
modified (the final configuration is the incoming one with only
`filts[2]` replaced by its index-0 overwrite). -/
theorem c5_model2_config_mutation (d : DArgs) (h1 : d.in_channels = 1)
    (h2 : d.filts2.length = 2) :
    Model2.initConfig d =
      Except.ok (model2BuildEvents d,
        { d with filts2 := d.filts2.set 0 (d.filts2.getD 1 0) }) ∧
    (model2BuildEvents d).count BuildEvent.setFilts2 = 1 ∧
    (model2BuildEvents d).getD 5 BuildEvent.sincConv = BuildEvent.block 2 d.filts2 false ∧
    (model2BuildEvents d).getD 6 BuildEvent.sincConv = BuildEvent.setFilts2 ∧
    (model2BuildEvents d).getD 7 BuildEvent.sincConv =
      BuildEvent.block 3 (d.filts2.set 0 (d.filts2.getD 1 0)) false ∧
    (d.filts2.set 0 (d.filts2.getD 1 0)).getD 0 0 =
      (d.filts2.set 0 (d.filts2.getD 1 0)).getD 1 0 ∧
    (d.filts2.set 0 (d.filts2.getD 1 0)).getD 1 0 = d.filts2.getD 1 0 := by
  refine ⟨?_, rfl, rfl, rfl, rfl, ?_, ?_⟩
  · simp [Model2.initConfig, SincConv.init, sincArgsOf, h1, model2BuildEvents]
  · obtain ⟨x, y, h⟩ := List.length_eq_two.mp h2
    rw [h]
    rfl
  · obtain ⟨x, y, h⟩ := List.length_eq_two.mp h2
    rw [h]
    rfl

/-- Witness for C5 at the representative configuration (incoming
`filts[2] = [20, 128]`): construction mutates it to `[128, 128]` and the
mutation event sits between the `block2` and `block3` constructions. -/
theorem c5_model2_config_mutation_witness :
    Model2.initConfig dArgsEx =
      Except.ok (model2BuildEvents dArgsEx,
        { dArgsEx with filts2 := dArgsEx.filts2.set 0 (dArgsEx.filts2.getD 1 0) }) ∧
    (model2BuildEvents dArgsEx).getD 6 BuildEvent.sincConv = BuildEvent.setFilts2 :=
  ⟨(c5_model2_config_mutation dArgsEx rfl rfl).1,
   (c5_model2_config_mutation dArgsEx rfl rfl).2.2.2.1⟩

/-- An `nn.Linear` output has one entry per weight row. -/
theorem linApply_length (p : LinearParams) (v : Vec) :
    (linApply p v).length = p.weight.length := by
  simp [linApply]

/-- The attention gate preserves the batch dimension. -/
theorem attentionGate_length (fc : LinearParams) (xB : T3) :
    (attentionGate fc xB).length = xB.length := by
  simp [attentionGate, List.length_zipWith, List.length_map, Nat.min_self]

/-- A residual block preserves the batch dimension. -/
theorem Residual_block.forward_length (s : ResBlockState) (x : T3) :
    (Residual_block.forward s x).length = x.length := by
  simp [Residual_block.forward]

/-- The `Model2` front end preserves the batch dimension. -/
theorem Model2.frontEnd_length (s : Model2State) (x : Mat) :
    (Model2.frontEnd s x).length = x.length := by
  simp [Model2.frontEnd, SincConv.forward]

/-- The six gated stages preserve the batch dimension. -/
theorem Model2.stages_length (s : Model2State) (x : T3) :
    (Model2.stages s x).length = x.length := by
  simp [Model2.stages, attentionGate_length, Residual_block.forward_length]

/-- Mapping a row-producing function of constant output length over a
batch yields rows whose lengths all equal that constant. -/
theorem map_length_const {α : Type} (f : α → List ℝ) (n : ℕ)
    (hf : ∀ v, (f v).length = n) (L : List α) :
    (L.map f).map List.length = List.replicate L.length n := by
  induction L with
  | nil => rfl
  | cons h t ih => simp [ih, hf, List.replicate_succ]

/-- The pre-`fc1` pipeline preserves the batch dimension. -/
theorem Model2.preFc_length (s : Model2State) (X : T3) :
    (Model2.preFc s X).length = X.length := by
  simp [Model2.preFc]

/-- Shape and structure of the `Model2.forward` tail: the first returned
component is the embedding (`fc1_gru` output, one row per batch element,
each of the layer's output width) and the second is the log-softmax of
`fc2_gru` applied to it. -/
theorem Model2.head_spec (s : Model2State) (X : T3) :
    (Model2.head s X).2 =
      ((Model2.head s X).1.map (linApply s.fc2_gru)).map logsoftmaxRow ∧
    (Model2.head s X).1.length = X.length ∧
    (Model2.head s X).2.length = X.length ∧
    (Model2.head s X).1.map List.length =
      List.replicate X.length s.fc1_gru.weight.length ∧
    (Model2.head s X).2.map List.length =
      List.replicate X.length s.fc2_gru.weight.length := by
  refine ⟨rfl, ?_, ?_, ?_, ?_⟩
  · show ((Model2.preFc s X).map (linApply s.fc1_gru)).length = X.length
    rw [List.length_map, Model2.preFc_length]
  · show ((((Model2.preFc s X).map (linApply s.fc1_gru)).map
      (linApply s.fc2_gru)).map logsoftmaxRow).length = X.length
    simp only [List.length_map]
    exact Model2.preFc_length s X
  · show ((Model2.preFc s X).map (linApply s.fc1_gru)).map List.length = _
    rw [map_length_const (linApply s.fc1_gru) s.fc1_gru.weight.length
      (fun v => linApply_length _ v), Model2.preFc_length]
  · show ((((Model2.preFc s X).map (linApply s.fc1_gru)).map
      (linApply s.fc2_gru)).map logsoftmaxRow).map List.length = _
    simp only [List.map_map]
    rw [show (List.length ∘ logsoftmaxRow ∘ linApply s.fc2_gru ∘ linApply s.fc1_gru) =
        fun _ => s.fc2_gru.weight.length from
      funext fun v => by simp [logsoftmaxRow, linApply_length, Function.comp]]
    rw [List.map_const', Model2.preFc_length]

/-- Concrete attention-head parameters used to exhibit that the gate
combination differs from a plain multiplicative gate. -/
def attnFcEx : LinearParams := { weight := [[0]], bias := [0] }

/-- Concrete one-sample, one-channel, one-step input for the same
purpose. -/
def xGateEx : T3 := [[[0]]]

/-- The temporal average pool of the concrete input. -/
theorem avgPool_xGateEx : avgPoolVec [[(0 : ℝ)]] = [0] := by
  norm_num [avgPoolVec]

/-- The concrete attention head maps the zero vector to the zero
vector. -/
theorem linApply_attnFcEx : linApply attnFcEx [(0 : ℝ)] = [0] := by
  show List.map _ (List.range 1) = _
  rw [List.range_succ, List.range_zero]
  norm_num [attnFcEx, List.zipWith_cons_cons, List.zipWith_nil_right]

/-- The sigmoid of 0 is 1/2 (so every gate value is nonzero). -/
theorem sigmoidR_zero : sigmoidR 0 = 1 / 2 := by
  norm_num [sigmoidR, Real.exp_zero]

/-- C3: In `Model2.forward`, the input to each residual stage after the
first is `x_i * y_i + y_i` (elementwise, broadcast over time), where
`y_i = sigmoid(linear_i(global_average_pool_over_time(x_i)))` reshaped to
`[batch, channels, 1]`; for some input this differs from the plain
multiplicative gate `x_i * y_i`.  The first conjunct is the pointwise
formula of the gate output, the second exhibits a concrete input where
the combination differs from the multiplicative-only gate, and the third
states that `Model2.forward` is exactly the gated stage pipeline between
its front end and its recurrent head. -/
theorem c3_attention_gate_combination (fc : LinearParams) (xB : T3) (b c t : ℕ)
    (hb : b < xB.length) (hc : c < (xB.getD b []).length)
    (hc2 : c < fc.weight.length)
    (ht : t < ((xB.getD b []).getD c []).length) :
    (((attentionGate fc xB).getD b []).getD c []).getD t 0 =
      (((xB.getD b []).getD c []).getD t 0) * gateValue fc xB b c + gateValue fc xB b c ∧
    attentionGate attnFcEx xGateEx ≠ plainMultGate attnFcEx xGateEx ∧
    (∀ (s : Model2State) (x2 : Mat),
      Model2.forward s x2 = Model2.head s (Model2.stages s (Model2.frontEnd s x2)) ∧
      Model2.stages s (Model2.frontEnd s x2) =
        attentionGate s.fc_attention5 (Residual_block.forward s.block5
          (attentionGate s.fc_attention4 (Residual_block.forward s.block4
            (attentionGate s.fc_attention3 (Residual_block.forward s.block3
              (attentionGate s.fc_attention2 (Residual_block.forward s.block2
                (attentionGate s.fc_attention1 (Residual_block.forward s.block1
                  (attentionGate s.fc_attention0 (Residual_block.forward s.block0
                    (Model2.frontEnd s x2))))))))))))) := by
  refine ⟨?_, ?_, fun s x2 => ⟨rfl, rfl⟩⟩
  · have hbg : b < (attentionGate fc xB).length := by
      rw [attentionGate_length]
      exact hb
    rw [List.getD_eq_getElem _ _ hbg]
    rw [List.getD_eq_getElem _ _ hb] at hc ht ⊢
    have hcl : c < (linApply fc (avgPoolVec xB[b])).length := by
      rw [linApply_length]
      exact hc2
    have hcr : c < (List.zipWith (fun row yv => row.map fun v => v * yv + yv) xB[b]
        ((linApply fc (avgPoolVec xB[b])).map sigmoidR)).length := by
      simp only [List.length_zipWith, List.length_map, linApply_length, lt_min_iff]
      exact ⟨hc, hc2⟩
    simp only [attentionGate, List.getElem_zipWith, List.getElem_map]
    rw [List.getD_eq_getElem _ _ hcr]
    rw [List.getD_eq_getElem _ _ hc] at ht ⊢
    simp only [List.getElem_zipWith, List.getElem_map]
    have htr : t < ((xB[b][c]).map fun v =>
        v * sigmoidR ((linApply fc (avgPoolVec xB[b]))[c]) +
          sigmoidR ((linApply fc (avgPoolVec xB[b]))[c])).length := by
      simpa using ht
    rw [List.getD_eq_getElem _ _ htr, List.getD_eq_getElem _ _ ht]
    simp only [List.getElem_map]
    rw [gateValue, List.getD_eq_getElem _ _ hb, List.getD_eq_getElem _ _ hcl]
  · simp only [attentionGate, plainMultGate, xGateEx, avgPool_xGateEx, linApply_attnFcEx,
      List.map_cons, List.map_nil, sigmoidR_zero, List.zipWith_cons_cons,
      List.zipWith_nil_right]
    norm_num

/-- Witness for C3 at the concrete head, input and indices
`b = c = t = 0`: the gate output entry is `x·y + y` and the combination
differs from the multiplicative gate. -/
theorem c3_attention_gate_combination_witness :
    (((attentionGate attnFcEx xGateEx).getD 0 []).getD 0 []).getD 0 0 =
      (((xGateEx.getD 0 []).getD 0 []).getD 0 0) * gateValue attnFcEx xGateEx 0 0 +
        gateValue attnFcEx xGateEx 0 0 ∧
    attentionGate attnFcEx xGateEx ≠ plainMultGate attnFcEx xGateEx :=
  ⟨(c3_attention_gate_combination attnFcEx xGateEx 0 0 0 (by decide) (by decide)
      (by decide) (by decide)).1,
   (c3_attention_gate_combination attnFcEx xGateEx 0 0 0 (by decide) (by decide)
      (by decide) (by decide)).2.1⟩

/-- C4: In `Residual_block.forward` with `first = false`, the
batch-normalized and leaky-rectified value computed from the input is
discarded: the first convolution is applied to the raw input `x`, so for
every input the block's output equals
`max_pool(conv2(lrelu(bn2(conv1(x)))) + shortcut(x))`, with no dependence
on `bn1`'s transformation of the data path. -/
theorem c4_residual_block_discards_bn1 (s : ResBlockState) (x : T3)
    (_hfirst : s.first = false) :
    Residual_block.forward s x =
      x.map (fun xc =>
        maxPool1dApply 3
          (addMat
            (conv1dApply s.conv2 1
              (lreluApply (bnApply s.bn2 (conv1dApply s.conv1 1 xc))))
            (Residual_block.shortcut s xc))) ∧
    (∀ p : BN1dParams,
      Residual_block.forward { s with bn1 := p } x = Residual_block.forward s x) :=
  ⟨rfl, fun _ => rfl⟩

/-- Concrete batch-normalisation parameters for the C4 witness. -/
def bn1dEx : BN1dParams :=
  { gamma := [1], beta := [0], mean := [0], var := [1], eps := 0.00001 }

/-- Concrete convolution parameters for the C4 witness. -/
def conv1dEx : Conv1dParams := { weight := [[[1, 0, 0]]], bias := [0] }

/-- A concrete non-`first` residual block. -/
def resBlockEx : ResBlockState :=
  { first := false, bn1 := bn1dEx, conv1 := conv1dEx, bn2 := bn1dEx,
    conv2 := conv1dEx, downsample := false, conv_downsample := conv1dEx }

/-- A concrete one-sample, one-channel, three-step input tensor. -/
def xT3Ex : T3 := [[[1, 2, 3]]]

/-- Witness for C4 at the concrete block and input. -/
theorem c4_residual_block_discards_bn1_witness :
    Residual_block.forward resBlockEx xT3Ex =
      xT3Ex.map (fun xc =>
        maxPool1dApply 3
          (addMat
            (conv1dApply resBlockEx.conv2 1
              (lreluApply (bnApply resBlockEx.bn2 (conv1dApply resBlockEx.conv1 1 xc))))
            (Residual_block.shortcut resBlockEx xc))) :=
  (c4_residual_block_discards_bn1 resBlockEx xT3Ex rfl).1

/-- Counterexample for C6 as stated: `Model.forward` never returns a
pair at all — its attribute resolution fails (at the `selu` step), so
the claim that `Model.forward` returns `(log-probabilities, embedding)`
is false on the code. -/
theorem c6_counterexample_model_forward_no_return :
    Model.forwardResolve ≠ Except.ok () := by
  simp [show Model.forwardResolve = Except.error "selu" from rfl]

/-- C6 (amended): `Model2.forward` returns `(embedding,
log-probabilities)`: the second component is the log-softmax of the
final linear layer applied to the first, the first has one row of width
`fc1_gru`'s output (`nb_fc_node`) per batch element, and the second one
row of width `fc2_gru`'s output (`nb_classes`) per batch element.
`Model.forward`'s return statement is written in the opposite order but
is never reached: its attribute resolution always fails at `selu`
(source line 260), so the effective 2-D model returns no pair. -/
theorem c6_return_order_amended (s : Model2State) (x : Mat) :
    (Model2.forward s x).2 =
      ((Model2.forward s x).1.map (linApply s.fc2_gru)).map logsoftmaxRow ∧
    (Model2.forward s x).1.length = x.length ∧
    (Model2.forward s x).2.length = x.length ∧
    (Model2.forward s x).1.map List.length =
      List.replicate x.length s.fc1_gru.weight.length ∧
    (Model2.forward s x).2.map List.length =
      List.replicate x.length s.fc2_gru.weight.length ∧
    Model.forwardResolve = Except.error "selu" := by
  have hs := Model2.head_spec s (Model2.stages s (Model2.frontEnd s x))
  have hl : (Model2.stages s (Model2.frontEnd s x)).length = x.length := by
    rw [Model2.stages_length, Model2.frontEnd_length]
  refine ⟨hs.1, ?_, ?_, ?_, ?_, rfl⟩
  · rw [show Model2.forward s x =
      Model2.head s (Model2.stages s (Model2.frontEnd s x)) from rfl, hs.2.1, hl]
  · rw [show Model2.forward s x =
      Model2.head s (Model2.stages s (Model2.frontEnd s x)) from rfl, hs.2.2.1, hl]
  · rw [show Model2.forward s x =
      Model2.head s (Model2.stages s (Model2.frontEnd s x)) from rfl, hs.2.2.2.1, hl]
  · rw [show Model2.forward s x =
      Model2.head s (Model2.stages s (Model2.frontEnd s x)) from rfl, hs.2.2.2.2, hl]

/-- The in-place row rewrite of `band_pass` preserves the matrix's row
count (it is an overwrite, not a reallocation). -/
theorem foldl_set_length (rows : ℕ → List ℝ) (l : List ℕ) (bp : List (List ℝ)) :
    (l.foldl (fun acc i => acc.set i (rows i)) bp).length = bp.length := by
  induction l generalizing bp with
  | nil => rfl
  | cons h t ih => simp [ih, List.length_set]

/-- Counterexample for C9 as stated: `SincConv.forward` does not leave
the instance state unchanged — already at the state produced by a fresh
construction it assigns `filters` (which the constructor never set). -/
theorem c9_counterexample_sincconv_forward_mutates :
    (SincConv.forward (SincConv.mkState sincArgsEx) []).1 ≠
      SincConv.mkState sincArgsEx := by
  intro h
  have hf := congrArg SincState.filters h
  simp only [SincConv.forward, SincConv.mkState] at hf
  cases hf

/-- The left fold of `max` dominates its accumulator. -/
theorem acc_le_foldl_max (l : List ℝ) (acc : ℝ) : acc ≤ l.foldl max acc := by
  induction l generalizing acc with
  | nil => exact le_refl acc
  | cons h t ih => exact le_trans (le_max_left acc h) (ih (max acc h))

/-- The left fold of `max` dominates every list element. -/
theorem mem_le_foldl_max (l : List ℝ) (acc a : ℝ) (ha : a ∈ l) :
    a ≤ l.foldl max acc := by
  induction l generalizing acc with
  | nil => cases ha
  | cons h t ih =>
    rcases List.mem_cons.mp ha with rfl | hmem
    · exact le_trans (le_max_right acc a) (acc_le_foldl_max t (max acc a))
    · exact ih (max acc h) hmem

/-- The left fold of `max` stays below any common upper bound. -/
theorem foldl_max_le (l : List ℝ) (acc M : ℝ) (hacc : acc ≤ M)
    (hl : ∀ a ∈ l, a ≤ M) : l.foldl max acc ≤ M := by
  induction l generalizing acc with
  | nil => exact hacc
  | cons h t ih =>
    exact ih (max acc h) (max_le hacc (hl h (List.mem_cons_self _ _)))
      (fun a ha => hl a (List.mem_cons_of_mem h ha))

/-- `np.max` of a list equals any member that bounds all members. -/
theorem npMax_eq (l : List ℝ) (M : ℝ) (hM : M ∈ l) (hub : ∀ a ∈ l, a ≤ M) :
    npMax l = M := by
  cases l with
  | nil => cases hM
  | cons h t =>
    refine le_antisymm ?_ ?_
    · exact foldl_max_le t h M (hub h (List.mem_cons_self _ _))
        (fun a ha => hub a (List.mem_cons_of_mem h ha))
    · rcases List.mem_cons.mp hM with rfl | hmem
      · exact acc_le_foldl_max t M
      · exact mem_le_foldl_max t h M hmem

/-- The left fold of `min` stays below its accumulator. -/
theorem foldl_min_le_acc (l : List ℝ) (acc : ℝ) : l.foldl min acc ≤ acc := by
  induction l generalizing acc with
  | nil => exact le_refl acc
  | cons h t ih => exact le_trans (ih (min acc h)) (min_le_left acc h)

/-- The left fold of `min` stays below every list element. -/
theorem foldl_min_le_mem (l : List ℝ) (acc a : ℝ) (ha : a ∈ l) :
    l.foldl min acc ≤ a := by
  induction l generalizing acc with
  | nil => cases ha
  | cons h t ih =>
    rcases List.mem_cons.mp ha with rfl | hmem
    · exact le_trans (foldl_min_le_acc t (min acc a)) (min_le_right acc a)
    · exact ih (min acc h) hmem

/-- The left fold of `min` stays above any common lower bound. -/
theorem le_foldl_min (l : List ℝ) (acc M : ℝ) (hacc : M ≤ acc)
    (hl : ∀ a ∈ l, M ≤ a) : M ≤ l.foldl min acc := by
  induction l generalizing acc with
  | nil => exact hacc
  | cons h t ih =>
    exact ih (min acc h) (le_min hacc (hl h (List.mem_cons_self _ _)))
      (fun a ha => hl a (List.mem_cons_of_mem h ha))

/-- `np.min` of a list equals any member below all members. -/
theorem npMin_eq (l : List ℝ) (M : ℝ) (hM : M ∈ l) (hlb : ∀ a ∈ l, M ≤ a) :
    npMin l = M := by
  cases l with
  | nil => cases hM
  | cons h t =>
    refine le_antisymm ?_ ?_
    · rcases List.mem_cons.mp hM with rfl | hmem
      · exact foldl_min_le_acc t M
      · exact foldl_min_le_mem t h M hmem
    · exact le_foldl_min t h M (hlb h (List.mem_cons_self _ _))
        (fun a ha => hlb a (List.mem_cons_of_mem h ha))

/-- The Hz-to-Mel map sends 0 to 0. -/
theorem to_mel_zero : SincConv.to_mel 0 = 0 := by
  simp [SincConv.to_mel]

/-- The Hz-to-Mel map is monotone on nonnegative frequencies. -/
theorem to_mel_mono {a b : ℝ} (ha : 0 ≤ a) (hab : a ≤ b) :
    SincConv.to_mel a ≤ SincConv.to_mel b := by
  unfold SincConv.to_mel
  have h7 : (0 : ℝ) ≤ a / 700 := by positivity
  refine mul_le_mul_of_nonneg_left ?_ (by norm_num)
  exact Real.logb_le_logb_of_le (by norm_num) (by linarith) (by linarith)

/-- The Hz-to-Mel map is nonnegative on nonnegative frequencies. -/
theorem to_mel_nonneg {a : ℝ} (ha : 0 ≤ a) : 0 ≤ SincConv.to_mel a :=
  to_mel_zero ▸ to_mel_mono (le_refl 0) ha

/-- The Mel-to-Hz map is monotone. -/
theorem to_hz_mono {a b : ℝ} (hab : a ≤ b) :
    SincConv.to_hz a ≤ SincConv.to_hz b := by
  unfold SincConv.to_hz
  refine mul_le_mul_of_nonneg_left (sub_le_sub_right ?_ 1) (by norm_num)
  exact (Real.rpow_le_rpow_left_iff (by norm_num)).mpr (by linarith)

/-- The Mel-to-Hz map sends 0 to 0. -/
theorem to_hz_zero : SincConv.to_hz 0 = 0 := by
  rw [SincConv.to_hz, zero_div, Real.rpow_zero]
  ring

/-- The Mel-to-Hz map inverts the Hz-to-Mel map on nonnegative
frequencies. -/
theorem to_hz_to_mel {h : ℝ} (hh : 0 ≤ h) :
    SincConv.to_hz (SincConv.to_mel h) = h := by
  have hpos : (0 : ℝ) < 1 + h / 700 := by
    have : (0 : ℝ) ≤ h / 700 := by positivity
    linarith
  rw [SincConv.to_hz, SincConv.to_mel,
    mul_div_cancel_left₀ _ (by norm_num : (2595 : ℝ) ≠ 0),
    Real.rpow_logb (by norm_num) (by norm_num) hpos]
  field_simp

/-- Every point of `np.linspace 0 1 257` lies in the unit interval. -/
theorem linspace01_bounds {v : ℝ} (hv : v ∈ linspace 0 1 (512 / 2 + 1)) :
    0 ≤ v ∧ v ≤ 1 := by
  simp only [linspace, List.mem_map, List.mem_range] at hv
  obtain ⟨j, hj, rfl⟩ := hv
  have h256 : ((512 / 2 + 1 : ℕ) : ℝ) - 1 = 256 := by norm_num
  rw [h256]
  constructor
  · positivity
  · have : (j : ℝ) ≤ 256 := by exact_mod_cast Nat.le_of_lt_succ hj
    rw [zero_add]
    calc (1 - 0) * (j : ℝ) / 256 = (j : ℝ) / 256 := by ring
    _ ≤ 256 / 256 := by gcongr
    _ = 1 := by norm_num

/-- 0 is a point of `np.linspace 0 1 257`. -/
theorem linspace01_zero_mem : (0 : ℝ) ∈ linspace 0 1 (512 / 2 + 1) := by
  simp only [linspace, List.mem_map, List.mem_range]
  exact ⟨0, by norm_num, by norm_num⟩

/-- 1 is a point of `np.linspace 0 1 257`. -/
theorem linspace01_one_mem : (1 : ℝ) ∈ linspace 0 1 (512 / 2 + 1) := by
  simp only [linspace, List.mem_map, List.mem_range]
  exact ⟨256, by norm_num, by norm_num⟩

/-- The maximum of the Mel-converted frequency axis is the Mel value of
the Nyquist frequency `int(sample_rate/2)`. -/
theorem fmel_max (sr : ℕ) :
    npMax (((linspace 0 1 (512 / 2 + 1)).map fun v =>
        ((sr / 2 : ℕ) : ℝ) * v).map SincConv.to_mel) =
      SincConv.to_mel ((sr / 2 : ℕ) : ℝ) := by
  have hsr0 : (0 : ℝ) ≤ ((sr / 2 : ℕ) : ℝ) := by positivity
  apply npMax_eq
  · refine List.mem_map.mpr ⟨((sr / 2 : ℕ) : ℝ) * 1,
      List.mem_map.mpr ⟨1, linspace01_one_mem, rfl⟩, ?_⟩
    rw [mul_one]
  · intro a ha
    obtain ⟨w, hw, rfl⟩ := List.mem_map.mp ha
    obtain ⟨v, hv, rfl⟩ := List.mem_map.mp hw
    obtain ⟨h0, h1⟩ := linspace01_bounds hv
    exact to_mel_mono (by positivity) (mul_le_of_le_one_right hsr0 h1)

/-- The minimum of the Mel-converted frequency axis is 0. -/
theorem fmel_min (sr : ℕ) :
    npMin (((linspace 0 1 (512 / 2 + 1)).map fun v =>
        ((sr / 2 : ℕ) : ℝ) * v).map SincConv.to_mel) = 0 := by
  apply npMin_eq
  · refine List.mem_map.mpr ⟨((sr / 2 : ℕ) : ℝ) * 0,
      List.mem_map.mpr ⟨0, linspace01_zero_mem, rfl⟩, ?_⟩
    rw [mul_zero, to_mel_zero]
  · intro a ha
    obtain ⟨w, hw, rfl⟩ := List.mem_map.mp ha
    obtain ⟨v, hv, rfl⟩ := List.mem_map.mp hw
    obtain ⟨h0, _⟩ := linspace01_bounds hv
    exact to_mel_nonneg (by positivity)

/-- The band edges are the Mel-to-Hz images of `outChannels + 1` evenly
spaced Mel points from 0 to the Mel value of the Nyquist frequency. -/
theorem melEdges_eq (sr n : ℕ) :
    SincConv.melEdges sr n =
      (linspace 0 (SincConv.to_mel ((sr / 2 : ℕ) : ℝ)) (n + 1)).map SincConv.to_hz := by
  simp only [SincConv.melEdges]
  rw [fmel_min sr, fmel_max sr]

/-- The value of a `linspace` point by index. -/
theorem linspace_getD (a b : ℝ) (num i : ℕ) (h : i < num) :
    (linspace a b num).getD i 0 = a + (b - a) * (i : ℝ) / ((num : ℝ) - 1) := by
  have hl : i < (linspace a b num).length := by
    simpa [linspace] using h
  rw [List.getD_eq_getElem _ _ hl]
  simp [linspace]

/-- The value of a band edge by index. -/
theorem melEdges_getD (sr n i : ℕ) (h : i < n + 1) :
    (SincConv.melEdges sr n).getD i 0 =
      SincConv.to_hz (SincConv.to_mel ((sr / 2 : ℕ) : ℝ) * (i : ℝ) / (n : ℝ)) := by
  rw [melEdges_eq]
  have hl : i < (linspace 0 (SincConv.to_mel ((sr / 2 : ℕ) : ℝ)) (n + 1)).length := by
    simpa [linspace] using h
  have hml : i < ((linspace 0 (SincConv.to_mel ((sr / 2 : ℕ) : ℝ)) (n + 1)).map
      SincConv.to_hz).length := by
    simpa using hl
  rw [List.getD_eq_getElem _ _ hml]
  rw [List.getElem_map]
  have hv := linspace_getD 0 (SincConv.to_mel ((sr / 2 : ℕ) : ℝ)) (n + 1) i h
  rw [List.getD_eq_getElem _ _ hl] at hv
  rw [hv]
  have hc : ((n + 1 : ℕ) : ℝ) - 1 = (n : ℝ) := by
    push_cast
    ring
  rw [hc, zero_add, sub_zero]

/-- C8: The Mel-edge computation in `SincConv.__init__` produces
`out_channels + 1` band-edge frequencies in Hz that are monotonically
non-decreasing, with the first edge equal to 0 Hz and the last equal to
`int(sample_rate / 2)` — which is `sample_rate / 2` for every even
sample rate, in particular 8000 Hz for `sample_rate = 16000` — for every
positive `out_channels`.  (The source's floating-point arithmetic is
idealised by real arithmetic, so the spec's "within floating-point
tolerance" holds exactly.) -/
theorem c8_mel_edges_span (n sr : ℕ) (hn : 0 < n) :
    (SincConv.melEdges sr n).length = n + 1 ∧
    (∀ i, i + 1 ≤ n →
      (SincConv.melEdges sr n).getD i 0 ≤ (SincConv.melEdges sr n).getD (i + 1) 0) ∧
    (SincConv.melEdges sr n).getD 0 0 = 0 ∧
    (SincConv.melEdges sr n).getD n 0 = ((sr / 2 : ℕ) : ℝ) ∧
    (2 ∣ sr → (SincConv.melEdges sr n).getD n 0 = (sr : ℝ) / 2) := by
  have hsr0 : (0 : ℝ) ≤ ((sr / 2 : ℕ) : ℝ) := by positivity
  have htm0 : 0 ≤ SincConv.to_mel ((sr / 2 : ℕ) : ℝ) := to_mel_nonneg hsr0
  have hnz : (n : ℝ) ≠ 0 := by
    exact_mod_cast hn.ne'
  have hlast : (SincConv.melEdges sr n).getD n 0 = ((sr / 2 : ℕ) : ℝ) := by
    rw [melEdges_getD sr n n (by omega), mul_div_assoc, div_self hnz, mul_one,
      to_hz_to_mel hsr0]
  refine ⟨?_, ?_, ?_, hlast, ?_⟩
  · rw [melEdges_eq]
    simp [linspace]
  · intro i hi
    rw [melEdges_getD sr n i (by omega), melEdges_getD sr n (i + 1) (by omega)]
    apply to_hz_mono
    have hcast : (i : ℝ) ≤ ((i + 1 : ℕ) : ℝ) := by
      exact_mod_cast Nat.le_succ i
    gcongr
  · rw [melEdges_getD sr n 0 (by omega)]
    norm_num [to_hz_zero]
  · intro hdvd
    rw [hlast]
    obtain ⟨k, rfl⟩ := hdvd
    have hk : (2 * k / 2 : ℕ) = k := by omega
    rw [hk]
    push_cast
    ring

/-- Witness for C8 at `out_channels = 20`, `sample_rate = 16000`: 21
edges, first edge 0 Hz, last edge 8000 Hz. -/
theorem c8_mel_edges_span_witness :
    (SincConv.melEdges 16000 20).length = 20 + 1 ∧
    (SincConv.melEdges 16000 20).getD 0 0 = 0 ∧
    (SincConv.melEdges 16000 20).getD 20 0 = (16000 : ℝ) / 2 :=
  ⟨(c8_mel_edges_span 20 16000 (by decide)).1,
   (c8_mel_edges_span 20 16000 (by decide)).2.2.1,
   (c8_mel_edges_span 20 16000 (by decide)).2.2.2.2 ⟨8000, rfl⟩⟩

/-- C9 (amended): every forward-pass operation is side-effect-free
except for batch-normalization running statistics and for
`SincConv.forward`, which writes `self.band_pass` in place (an overwrite
preserving its row count) and assigns `self.filters` on every call;
`SincConv.forward` changes no instance state other than those two
fields. -/
theorem c9_sincconv_forward_frame_amended (s : SincState) (x : T3) :
    (SincConv.forward s x).1 =
      { s with band_pass := SincConv.newBandPass s,
               filters := some (SincConv.filterView s) } ∧
    (SincConv.forward s x).1.out_channels = s.out_channels ∧
    (SincConv.forward s x).1.kernel_size = s.kernel_size ∧
    (SincConv.forward s x).1.sample_rate = s.sample_rate ∧
    (SincConv.forward s x).1.stride = s.stride ∧
    (SincConv.forward s x).1.padding = s.padding ∧
    (SincConv.forward s x).1.dilation = s.dilation ∧
    (SincConv.forward s x).1.mel = s.mel ∧
    (SincConv.forward s x).1.hsupp = s.hsupp ∧
    (SincConv.forward s x).1.band_pass.length = s.band_pass.length ∧
    (SincConv.forward s x).1.filters = some (SincConv.filterView s) := by
  refine ⟨rfl, rfl, rfl, rfl, rfl, rfl, rfl, rfl, rfl, ?_, rfl⟩
  show (SincConv.newBandPass s).length = s.band_pass.length
  rw [SincConv.newBandPass]
  exact foldl_set_length _ _ _

end

